import Mathlib

/-!
Shallow embedding of the docker-slim in-container launcher
(`src/launcher/main.go`): the process introspector (`getProcessInfo`),
the fanotify event decoder and aggregator (`listenEvents`), the fork
observer (`monitorProcess`), the symlink resolver (`findSymlinks` /
`filesToInodes`) and the artifact store (`prepareArtifact`,
`saveReport`), together with theorems about the properties the
repository's specification states for them.

Go maps are modelled as association lists; a `nil` Go map is modelled
as `Option` `none` where the nil/allocated distinction is observable
(reads from a nil map succeed, writes panic, and `encoding/json`
renders a nil map as JSON `null`).  Go's `uint32` counters are
modelled as `Nat`: no claim concerns counter overflow, which would
need `2^32` events in a single observation window.  A Go function that
can return an error or panic at runtime is modelled with `goRes`.
-/

/-- Outcome of a Go computation: a value, a returned `error`, or a
runtime panic that kills the process. -/
inductive goRes (α : Type) where
  | ok : α → goRes α
  | err : goRes α
  | crash : goRes α
deriving Repr, DecidableEq

/-- Map a function over the `ok` value of a `goRes`. -/
def goRes.mapR (f : α → β) : goRes α → goRes β
  | .ok a => .ok (f a)
  | .err => .err
  | .crash => .crash

/-- Lookup in an association list (a Go map read: absent key gives the
zero value, modelled as `none`). -/
def alget [DecidableEq κ] (m : List (κ × α)) (k : κ) : Option α :=
  match m with
  | [] => none
  | (k0, v) :: t => if k0 = k then some v else alget t k

/-- Go map assignment `m[k] = v`: replace the binding if the key is
present, otherwise add it. -/
def alput [DecidableEq κ] (m : List (κ × α)) (k : κ) (v : α) : List (κ × α) :=
  match m with
  | [] => [(k, v)]
  | (k0, v0) :: t => if k0 = k then (k0, v) :: t else (k0, v0) :: alput t k v

/-- Lookup with a default (Go read of a map of slices: absent key is
the empty slice). -/
def algetD [DecidableEq κ] (m : List (κ × α)) (k : κ) (d : α) : α :=
  (alget m k).getD d

/-- Go `m[k] = append(m[k], v)` for a map of slices. -/
def appendAt [DecidableEq κ] (m : List (κ × List α)) (k : κ) (v : α) : List (κ × List α) :=
  match m with
  | [] => [(k, [v])]
  | (k0, vs) :: t => if k0 = k then (k0, vs ++ [v]) :: t else (k0, vs) :: appendAt t k v

/-- Insert a key into a Go map used as a set (`m[k] = nil`): keys are
kept once, insertion order preserved. -/
def putKey (res : List String) (f : String) : List String :=
  if f ∈ res then res else res ++ [f]

/-- Sum of a numeric projection over the range of an association list. -/
def alsum [DecidableEq κ] (f : α → Nat) (m : List (κ × α)) : Nat :=
  (m.map (fun p => f p.2)).sum

/-- Split a character list at every occurrence of `sep`, keeping empty
segments: Go's `strings.Split(s, sep)` for a one-character separator. -/
def splitOnChar (sep : Char) : List Char → List Char → List (List Char)
  | [], acc => [acc.reverse]
  | c :: cs, acc => if c = sep then acc.reverse :: splitOnChar sep cs [] else splitOnChar sep cs (c :: acc)

/-- Whitespace test used by `strings.TrimSpace` for the ASCII content
these tools produce. -/
def isSpaceChar (c : Char) : Bool :=
  c = ' ' || c = '\t' || c = '\n' || c = '\r'

/-- Go's `strings.TrimSpace` on a character list. -/
def trimChars (s : List Char) : List Char :=
  ((s.dropWhile isSpaceChar).reverse.dropWhile isSpaceChar).reverse

/-- Digit-string parser: `some n` iff the list is a non-empty run of
decimal digits. -/
def digitsToNatAux (acc : Nat) : List Char → Option Nat
  | [] => some acc
  | c :: cs => if c.isDigit then digitsToNatAux (acc * 10 + (c.toNat - '0'.toNat)) cs else none

/-- Parse a non-empty digit run into a `Nat`. -/
def digitsToNat : List Char → Option Nat
  | [] => none
  | l => digitsToNatAux 0 l

/-- Go's `strconv.Atoi`: optional sign, then only digits; anything
else is an error. -/
def goAtoi : List Char → Option Int
  | [] => none
  | '-' :: rest => (digitsToNat rest).map (fun n => -(n : Int))
  | '+' :: rest => (digitsToNat rest).map (fun n => (n : Int))
  | s => (digitsToNat s).map (fun n => (n : Int))

/-- Whitespace-separated tokens of a string, as `fmt.Sscanf` consumes
them (the `/proc` stat content is space separated). -/
def goWords (s : List Char) : List (List Char) :=
  (splitOnChar ' ' s []).filter (· ≠ [])

/-! ## Process introspector (`getProcessInfo`, main.go lines 291-343) -/

/-- Snapshot of the five `/proc/<pid>/…` pseudo-files the introspector
reads; `none` means the read/readlink returned an error. -/
structure procEntry where
  exe : Option String
  cwd : Option String
  root : Option String
  cmdline : Option String
  stat : Option String
deriving Repr, DecidableEq

/-- Process record built by `getProcessInfo` (struct `processInfo`). -/
structure processInfo where
  pid : Int
  name : String
  path : String
  cmd : String
  cwd : String
  root : String
  parentPid : Int
deriving Repr, DecidableEq

/-- Drop trailing NUL characters: `bytes.TrimRight(rawCmdline, "\x00")`. -/
def trimRightNul (l : List Char) : List Char :=
  (l.reverse.dropWhile (· = '\x00')).reverse

/-- Decode `/proc/<pid>/cmdline`: trim trailing NULs, then replace each
remaining NUL with a space (main.go lines 315-320). -/
def decodeCmdline (raw : String) : String :=
  String.mk ((trimRightNul raw.data).map (fun c => if c = '\x00' then ' ' else c))

/-- Model of `fmt.Sscanf(string(stat), "%d %s %s %d", &procPid,
&procName, &procStatus, &procPpid)`: scan stops at the first failing
verb, leaving later targets at their zero values. -/
def sscanfStat (s : List Char) : Int × List Char × List Char × Int :=
  match goWords s with
  | [] => (0, [], [], 0)
  | t0 :: rest =>
    match goAtoi t0 with
    | none => (0, [], [], 0)
    | some pid0 =>
      match rest with
      | [] => (pid0, [], [], 0)
      | t1 :: rest2 =>
        match rest2 with
        | [] => (pid0, t1, [], 0)
        | t2 :: rest3 =>
          match rest3 with
          | [] => (pid0, t1, t2, 0)
          | t3 :: _ =>
            match goAtoi t3 with
            | none => (pid0, t1, t2, 0)
            | some pp => (pid0, t1, t2, pp)

/-- Embedding of `getProcessInfo` (main.go lines 291-343).  The first
four reads return the error to the caller; the error of the
`/proc/<pid>/stat` read is discarded by the source, so a failed read
leaves `stat` as the empty byte slice, `procName` stays empty after
`Sscanf`, and the slice expression `procName[1 : len(procName)-1]`
panics whenever `procName` has fewer than two characters. -/
def getProcessInfo (pe : procEntry) (pid : Int) : goRes processInfo :=
  match pe.exe with
  | none => .err
  | some exePath =>
  match pe.cwd with
  | none => .err
  | some cwdPath =>
  match pe.root with
  | none => .err
  | some rootPath =>
  match pe.cmdline with
  | none => .err
  | some rawCmdline =>
  let cmd := if rawCmdline.length > 0 then decodeCmdline rawCmdline else ""
  let statStr := pe.stat.getD ""
  match sscanfStat statStr.data with
  | (_, procName, _, procPpid) =>
    if procName.length ≥ 2 then
      .ok { pid := pid, name := String.mk (procName.drop 1).dropLast, path := exePath,
            cmd := cmd, cwd := cwdPath, root := rootPath, parentPid := procPpid }
    else
      .crash

/-! ## Notification source (fanotify decode loop, main.go lines 368-413) -/

/-- Linux fanotify mask bits used by the source. -/
def FAN_ACCESS : Nat := 1

/-- Linux fanotify modify bit. -/
def FAN_MODIFY : Nat := 2

/-- Linux fanotify open bit. -/
def FAN_OPEN : Nat := 32

/-- Linux fanotify queue-overflow bit. -/
def FAN_Q_OVERFLOW : Nat := 16384

/-- Raw fanotify datum as the decode loop sees it: the event mask, the
pid, and the path obtained by readlink of `/proc/self/fd/<fd>` (the
readlink is checked with `check(err)`, which aborts the run on error;
the model covers runs in which every readlink succeeds). -/
structure rawEvent where
  mask : Nat
  pid : Int
  path : String
deriving Repr, DecidableEq

/-- Normalized event (struct `event`): id, pid, path, read/write flags.
An open-only event has both flags false. -/
structure event where
  id : Nat
  pid : Int
  file : String
  isRead : Bool
  isWrite : Bool
deriving Repr, DecidableEq

/-- One iteration of the decode loop (main.go lines 371-412): drop on
the overflow bit, otherwise compute the flags, and assign
`id = ++counter` only when one of the open/access/modify bits is set. -/
def processRaw (counter : Nat) (d : rawEvent) : Nat × Option event :=
  if d.mask &&& FAN_Q_OVERFLOW == FAN_Q_OVERFLOW then
    (counter, none)
  else
    let isRead := d.mask &&& FAN_ACCESS == FAN_ACCESS
    let isWrite := d.mask &&& FAN_MODIFY == FAN_MODIFY
    let doNotify := (d.mask &&& FAN_OPEN == FAN_OPEN) || isRead || isWrite
    if doNotify then
      (counter + 1, some { id := counter + 1, pid := d.pid, file := d.path,
                           isRead := isRead, isWrite := isWrite })
    else
      (counter, none)

/-- Stream of normalized events the decode loop emits for a list of
raw data, starting from a given counter value. -/
def emitEvents (counter : Nat) : List rawEvent → List event
  | [] => []
  | d :: rest =>
    match processRaw counter d with
    | (c, some e) => e :: emitEvents c rest
    | (c, none) => emitEvents c rest

/-- Emission condition of the decode loop: the overflow bit clear and
at least one of the open/access/modify bits set. -/
def shouldEmit (d : rawEvent) : Bool :=
  (!(d.mask &&& FAN_Q_OVERFLOW == FAN_Q_OVERFLOW)) &&
    ((d.mask &&& FAN_OPEN == FAN_OPEN) || (d.mask &&& FAN_ACCESS == FAN_ACCESS) ||
      (d.mask &&& FAN_MODIFY == FAN_MODIFY))

/-! ## Event aggregator (`listenEvents` select loop, main.go lines 415-489) -/

/-- Per-(pid, path) counters (struct `fileInfo`).  The source never
assigns `FirstEventID`, so it stays at its zero value. -/
structure fileInfo where
  eventCount : Nat
  firstEventID : Nat
  name : String
  readCount : Nat
  writeCount : Nat
  exeCount : Nat
deriving Repr, DecidableEq

/-- The in-memory report (struct `monitorReport`).  `processes` is
`none` while the Go map is nil: the source allocates it only in the
first-event introspection-success branch, while `processFiles` is
allocated up front with `make`. -/
structure monitorReport where
  monitorPid : Int
  monitorParentPid : Int
  eventCount : Nat
  mainProcess : Option processInfo
  processes : Option (List (String × processInfo))
  processFiles : List (String × List (String × fileInfo))
deriving Repr, DecidableEq

/-- Report value built at the top of the worker goroutine (main.go
lines 361-365). -/
def initReport (mpid mppid : Int) : monitorReport :=
  { monitorPid := mpid, monitorParentPid := mppid, eventCount := 0,
    mainProcess := none, processes := none, processFiles := [] }

/-- An event paired with the `/proc/<pid>` contents observed at the
moment the aggregator processes it (the target may exit at any time,
so each introspection sees its own snapshot). -/
structure aggEvent where
  e : event
  proc : procEntry
deriving Repr, DecidableEq

/-- Increment of `report.EventCount` (main.go line 425). -/
def bumpCount (r : monitorReport) : monitorReport :=
  { r with eventCount := r.eventCount + 1 }

/-- Steps 2-3 of the aggregation (main.go lines 428-445): on the first
event, introspect and on success set `main_process`, allocate
`processes` and seed it; on later events whose pid is not a key of
`processes`, introspect and insert on success.  Reading the nil
`processes` map is fine (`none.getD []`), but the insert panics when
the map was never allocated, exactly as the Go assignment
`report.Processes[pid] = pinfo` does. -/
def procPhase (r : monitorReport) (ae : aggEvent) : goRes monitorReport :=
  let pk := toString ae.e.pid
  if ae.e.id = 1 then
    match getProcessInfo ae.proc ae.e.pid with
    | .ok pinfo =>
      .ok { r with mainProcess := some pinfo, processes := some (alput [] pk pinfo) }
    | .err => .ok r
    | .crash => .crash
  else
    match alget (r.processes.getD []) pk with
    | some _ => .ok r
    | none =>
      match getProcessInfo ae.proc ae.e.pid with
      | .ok pinfo =>
        match r.processes with
        | none => .crash
        | some m => .ok { r with processes := some (alput m pk pinfo) }
      | .err => .ok r
      | .crash => .crash

/-- Step 4 of the aggregation (main.go lines 447-450): allocate the
inner map for the pid if absent. -/
def ensurePf (r : monitorReport) (pk : String) : monitorReport :=
  match alget r.processFiles pk with
  | some _ => r
  | none => { r with processFiles := alput r.processFiles pk [] }

/-- Condition guarding the `ExeCount` increments (main.go lines 466
and 482): a process record exists for the pid and the event path
equals its `exe` path. -/
def exeMatch (r : monitorReport) (pk f : String) : Bool :=
  match alget (r.processes.getD []) pk with
  | some pi => f = pi.path
  | none => false

/-- Fresh record for a first event on a (pid, path) pair (main.go
lines 453-468). -/
def newFi (ae : aggEvent) (xm : Bool) : fileInfo :=
  { eventCount := 1, firstEventID := 0, name := ae.e.file,
    readCount := if ae.e.isRead then 1 else 0,
    writeCount := if ae.e.isWrite then 1 else 0,
    exeCount := if xm then 1 else 0 }

/-- In-place increments on an existing record (main.go lines 471-484). -/
def bumpFi (fi : fileInfo) (ae : aggEvent) (xm : Bool) : fileInfo :=
  { fi with
    eventCount := fi.eventCount + 1,
    readCount := fi.readCount + (if ae.e.isRead then 1 else 0),
    writeCount := fi.writeCount + (if ae.e.isWrite then 1 else 0),
    exeCount := fi.exeCount + (if xm then 1 else 0) }

/-- Step 5 on the inner map: create or update the record for the path. -/
def updatePfm (pfm : List (String × fileInfo)) (ae : aggEvent) (xm : Bool) :
    List (String × fileInfo) :=
  match alget pfm ae.e.file with
  | none => alput pfm ae.e.file (newFi ae xm)
  | some fi => alput pfm ae.e.file (bumpFi fi ae xm)

/-- Steps 4-5 of the aggregation (main.go lines 447-485). -/
def filePhase (r : monitorReport) (ae : aggEvent) : monitorReport :=
  let pk := toString ae.e.pid
  let r1 := ensurePf r pk
  let pfm := (alget r1.processFiles pk).getD []
  { r1 with processFiles := alput r1.processFiles pk (updatePfm pfm ae (exeMatch r1 pk ae.e.file)) }

/-- Full handling of one delivered event (main.go lines 424-485). -/
def aggStep (r : monitorReport) (ae : aggEvent) : goRes monitorReport :=
  (procPhase (bumpCount r) ae).mapR (fun r1 => filePhase r1 ae)

/-- The aggregation loop over a finite delivered-event sequence; a
panic in any step kills the goroutine (and the process), so no report
is produced. -/
def aggRun (r : monitorReport) : List aggEvent → goRes monitorReport
  | [] => .ok r
  | ae :: rest =>
    match aggStep r ae with
    | .ok r1 => aggRun r1 rest
    | .err => .err
    | .crash => .crash

/-- Total of the per-file event counters:
`Σ_pid Σ_path file.event_count`. -/
def pfSum (pf : List (String × List (String × fileInfo))) : Nat :=
  alsum (alsum fileInfo.eventCount) pf

/-- Record stored for a (pid key, path) pair. -/
def recOf (r : monitorReport) (pk f : String) : Option fileInfo :=
  (alget r.processFiles pk).bind (fun m => alget m f)

/-- Event count of the record at a (pid key, path) pair, zero when
absent. -/
def ecOf (r : monitorReport) (pk f : String) : Nat :=
  ((recOf r pk f).map fileInfo.eventCount).getD 0

/-- Read count of the record at a (pid key, path) pair. -/
def rdOf (r : monitorReport) (pk f : String) : Nat :=
  ((recOf r pk f).map fileInfo.readCount).getD 0

/-- Write count of the record at a (pid key, path) pair. -/
def wrOf (r : monitorReport) (pk f : String) : Nat :=
  ((recOf r pk f).map fileInfo.writeCount).getD 0

/-- Exec count of the record at a (pid key, path) pair. -/
def exOf (r : monitorReport) (pk f : String) : Nat :=
  ((recOf r pk f).map fileInfo.exeCount).getD 0

/-- Record of the final report of a run, `none` when the run did not
produce a report or the pair is absent. -/
def finalRec (res : goRes monitorReport) (pk f : String) : Option fileInfo :=
  match res with
  | .ok r => recOf r pk f
  | _ => none

/-! ## Fork observer (`monitorProcess`, main.go lines 498-527) and the
tasks `monitor` actually starts (main.go lines 952-998) -/

/-- Process-lifecycle netlink events as `pdiscover` delivers them to
the `monitorProcess` select loop; `errEv` is a value on the watcher's
error channel, on which the loop panics. -/
inductive procEvent where
  | fork (parent child : Int)
  | execEv (pid : Int)
  | exitEv (pid : Int)
  | errEv
deriving Repr, DecidableEq

/-- The `monitorProcess` select loop: record each fork as
`forks[parent] = append(forks[parent], child)`, ignore exec and exit
events, panic on an error event. -/
def monitorProcessForksAux (acc : List (Int × List Int)) :
    List procEvent → goRes (List (Int × List Int))
  | [] => .ok acc
  | .fork p c :: rest => monitorProcessForksAux (appendAt acc p c) rest
  | .execEv _ :: rest => monitorProcessForksAux acc rest
  | .exitEv _ :: rest => monitorProcessForksAux acc rest
  | .errEv :: _ => .crash

/-- Parent→children map delivered by `monitorProcess` at stop time. -/
def monitorProcessForks (evs : List procEvent) : goRes (List (Int × List Int)) :=
  monitorProcessForksAux [] evs

/-- Children recorded for a parent, in delivery order. -/
def forkChildren (evs : List procEvent) (p : Int) : List Int :=
  evs.filterMap (fun ev =>
    match ev with
    | .fork q c => if q = p then some c else none
    | _ => none)

/-- Background observers the launcher can start. -/
inductive launcherTask where
  | fanotifyListener
  | forkWatcher
deriving Repr, DecidableEq

/-- Observers started by `monitor` (main.go lines 952-998): the source
calls `listenEvents(mountPoint, stopEvents)` at line 961; the
`monitorProcess(stop_process)` invocation and its stop channel at
lines 963-964 are commented out, as are the uses of its output in the
worker goroutine (lines 970, 973). -/
def monitorStartedTasks : List launcherTask :=
  [.fanotifyListener]

/-! ## Symlink resolver (`filesToInodes` lines 565-582, `findSymlinks`
lines 584-612) -/

/-- Rendering of `/usr/bin/find -L <mp> -mount -printf "%i %p\n"`
output for a filesystem enumeration given as (inode, path) pairs. -/
def findOutput (fs : List (Nat × String)) : String :=
  String.join (fs.map (fun p => Nat.repr p.1 ++ " " ++ p.2 ++ "\n"))

/-- Rendering of `/usr/bin/stat -L -c %i <files…>` output: one inode
line per file whose stat succeeds (a failing file prints to stderr
only).  `statFn` gives the inode of a path with symlinks followed,
`none` when stat fails. -/
def statOutput (statFn : String → Option Nat) (files : List String) : String :=
  String.join ((files.filterMap statFn).map (fun i => Nat.repr i ++ "\n"))

/-- Embedding of `filesToInodes`: split the stat output on newlines,
trim each line, keep the lines `strconv.Atoi` accepts. -/
def filesToInodes (statFn : String → Option Nat) (files : List String) : List Int :=
  (splitOnChar '\n' (statOutput statFn files).data []).filterMap
    (fun l => goAtoi (trimChars l))

/-- The find-output parse loop of `findSymlinks` (main.go lines
594-602): per line, trim, split on single spaces, `Atoi` the first
token and skip the line if it fails, then take `info[1]` as the path —
an index-out-of-range panic when the line has no space, and a
truncated path when the path itself contains a space. -/
def parseFindLines (acc : List (Int × List String)) :
    List (List Char) → goRes (List (Int × List String))
  | [] => .ok acc
  | line :: rest =>
    match splitOnChar ' ' (trimChars line) [] with
    | [] => parseFindLines acc rest
    | t0 :: toks =>
      match goAtoi t0 with
      | none => parseFindLines acc rest
      | some inode =>
        match toks with
        | [] => .crash
        | p :: _ => parseFindLines (appendAt acc inode (String.mk p)) rest

/-- Embedding of `findSymlinks`: build inode→paths from the find
output, then collect, over the inodes of the input files, every path
recorded for that inode; the result is the key set of the returned
`map[string]*artifactProps` whose values are all nil. -/
def findSymlinksModel (statFn : String → Option Nat) (files : List String)
    (findOut : String) : goRes (List String) :=
  match parseFindLines [] (splitOnChar '\n' findOut.data []) with
  | .ok i2f =>
    .ok ((filesToInodes statFn files).foldl
      (fun res i => (algetD i2f i []).foldl putKey res) [])
  | .err => .err
  | .crash => .crash

/-! ## Artifact store (`artifactStore`, main.go lines 729-919) -/

/-- Artifact type constants (main.go lines 687-692); the Go type is an
int whose zero value 0 has no name. -/
def dirArtifactType : Nat := 1

/-- Regular-file artifact type constant. -/
def fileArtifactType : Nat := 2

/-- Symlink artifact type constant. -/
def symlinkArtifactType : Nat := 3

/-- Unknown artifact type constant. -/
def unknownArtifactType : Nat := 99

/-- Per-path record of the final report (struct `artifactProps`).
`flags` is `none` when the aggregated flag map is empty (omitted from
the JSON); otherwise the triple is (R, W, X). -/
structure artifactProps where
  fileType : Nat
  filePath : String
  modeText : String
  linkRef : String
  flags : Option (Bool × Bool × Bool)
  dataType : String
  fileSize : Int
  sha1Hash : String
deriving Repr, DecidableEq

/-- Classification of an `os.Lstat` result as the source's switch
reads it: regular file, symlink, directory, or anything else. -/
inductive fsKind where
  | regular
  | symlink
  | directory
  | other
deriving Repr, DecidableEq

/-- Result of a successful `os.Lstat`. -/
structure lstatResult where
  kind : fsKind
  modeText : String
  size : Int
deriving Repr, DecidableEq

/-- Filesystem environment of the artifact-store pass: `lstatFn`
models `os.Lstat` (with `none` for an error), `readlinkFn` models
`os.Readlink`, `sha1Fn` the SHA-1 of a readable regular file, and
`dataTypeFn` the `file`-command classification. -/
structure fsEnv where
  lstatFn : String → Option lstatResult
  readlinkFn : String → Option String
  sha1Fn : String → Option String
  dataTypeFn : String → Option String

/-- State of the store (struct `artifactStore`): `rawNames` is the
resolver's path→props map whose values start nil (`none`). -/
structure artStore where
  monReport : monitorReport
  rawNames : List (String × Option artifactProps)
  nameList : List String
  resolveSet : List String
  linkMap : List (String × artifactProps)
  fileMap : List (String × artifactProps)

/-- Constructor `newArtifactStore` (main.go lines 739-753). -/
def newStore (rep : monitorReport) (raw : List (String × Option artifactProps)) : artStore :=
  { monReport := rep, rawNames := raw, nameList := [], resolveSet := [],
    linkMap := [], fileMap := [] }

/-- Embedding of `getArtifactFlags` (main.go lines 755-778): scan every
per-process file map and aggregate R/W/X; `none` when all are false. -/
def getArtifactFlags (rep : monitorReport) (f : String) : Option (Bool × Bool × Bool) :=
  let rFlag := rep.processFiles.any (fun pr =>
    match alget pr.2 f with
    | some fi => fi.readCount > 0
    | none => false)
  let wFlag := rep.processFiles.any (fun pr =>
    match alget pr.2 f with
    | some fi => fi.writeCount > 0
    | none => false)
  let xFlag := rep.processFiles.any (fun pr =>
    match alget pr.2 f with
    | some fi => fi.exeCount > 0
    | none => false)
  if rFlag || wFlag || xFlag then some (rFlag, wFlag, xFlag) else none

/-- Embedding of `prepareArtifact` (main.go lines 780-831).  A failed
lstat returns with no change; otherwise the path is appended to
`nameList` first, and then only the regular-file and symlink branches
register the props in `rawNames` (and in `fileMap`/`linkMap`); the
directory and default branches leave every map untouched, so the
path's `rawNames` entry keeps its initial nil. -/
def prepareArtifact (env : fsEnv) (p : artStore) (f : String) : artStore :=
  match env.lstatFn f with
  | none => p
  | some st =>
    let p1 := { p with nameList := p.nameList ++ [f] }
    let base : artifactProps :=
      { fileType := 0, filePath := f, modeText := st.modeText, linkRef := "",
        flags := getArtifactFlags p1.monReport f, dataType := "",
        fileSize := st.size, sha1Hash := "" }
    match st.kind with
    | .regular =>
      let props := { base with
        fileType := fileArtifactType,
        sha1Hash := (env.sha1Fn f).getD "",
        dataType := (env.dataTypeFn f).getD "" }
      { p1 with
        fileMap := alput p1.fileMap f props,
        rawNames := alput p1.rawNames f (some props) }
    | .symlink =>
      match env.readlinkFn f with
      | none => p1
      | some ref =>
        let props := { base with fileType := symlinkArtifactType, linkRef := ref }
        let p2 := if (alget p1.rawNames ref).isNone
                  then { p1 with resolveSet := putKey p1.resolveSet ref }
                  else p1
        { p2 with
          linkMap := alput p2.linkMap f props,
          rawNames := alput p2.rawNames f (some props) }
    | .directory => p1
    | .other => p1

/-- Embedding of `prepareArtifacts` (main.go lines 833-840): one
`prepareArtifact` per key of `rawNames` (only values are updated while
ranging, so the key set is fixed); `resolveLinks` is an empty loop. -/
def prepareArtifacts (env : fsEnv) (p : artStore) : artStore :=
  (p.rawNames.map Prod.fst).foldl (prepareArtifact env) p

/-- Paths whose content `saveArtifacts` copies into the staging tree:
the keys of `fileMap` (main.go lines 850-858). -/
def copiedFiles (p : artStore) : List String :=
  p.fileMap.map Prod.fst

/-- Insertion of a string into an ascending list. -/
def insertSorted (x : String) : List String → List String
  | [] => [x]
  | y :: ys => if x ≤ y then x :: y :: ys else y :: insertSorted x ys

/-- Ascending sort of the name list (`sort.Strings`). -/
def sortStrings (l : List String) : List String :=
  l.foldr insertSorted []

/-- Entries of `creport.json → image.files` (main.go lines 884-911):
one entry per sorted name, taking its `rawNames` value; a path never
registered keeps the nil pointer, which `encoding/json` renders as a
JSON `null` (modelled as `none`). -/
def imageFiles (p : artStore) : List (Option artifactProps) :=
  (sortStrings p.nameList).map (fun g => (alget p.rawNames g).getD none)

/-- Content of the written `creport.json`: the monitor report plus the
image file list. -/
structure finalReport where
  monitor : monitorReport
  image : List (Option artifactProps)

/-- Embedding of `saveReport` (main.go lines 884-911): sort the name
list and emit `{monitor, image.files}`. -/
def saveReportModel (p : artStore) : finalReport :=
  { monitor := p.monReport, image := imageFiles p }

/-! ## Concrete fixtures used by witnesses and counterexamples -/

/-- Snapshot of a pid whose five `/proc` reads all fail (the process
exited before the first read). -/
def procEntryNone : procEntry := ⟨none, none, none, none, none⟩

/-- Snapshot where the three readlinks and the cmdline read succeed
but the `/proc/<pid>/stat` read fails. -/
def procEntryStatFail : procEntry :=
  ⟨some "/exe", some "/cwd", some "/root", some "cmd", none⟩

/-- Fully readable snapshot of a process whose executable is `/exe`. -/
def procEntryExe : procEntry :=
  ⟨some "/exe", some "/", some "/", some "app", some "7 (app) S 1"⟩

/-- One read-only event from pid 5 whose introspection fails. -/
def w1evs : List aggEvent := [⟨⟨1, 5, "/f", true, false⟩, procEntryNone⟩]

/-- Record produced by `w1evs`. -/
def w1fi : fileInfo := ⟨1, 0, "/f", 1, 0, 0⟩

/-- Report produced by `w1evs`. -/
def w1rep : monitorReport :=
  { monitorPid := 9, monitorParentPid := 1, eventCount := 1, mainProcess := none,
    processes := none, processFiles := [("5", [("/f", w1fi)])] }

/-! ## Map lemmas -/

theorem alget_alput [DecidableEq κ] (m : List (κ × α)) (k k' : κ) (v : α) :
    alget (alput m k v) k' = if k' = k then some v else alget m k' := by
  induction m with
  | nil =>
    by_cases h : k' = k
    · subst h; simp [alput, alget]
    · have h2 : ¬ k = k' := fun hh => h hh.symm
      simp [alput, alget, h, h2]
  | cons hd t ih =>
    obtain ⟨k0, v0⟩ := hd
    by_cases hk : k0 = k
    · subst hk
      by_cases hk' : k' = k0
      · subst hk'
        simp [alput, alget]
      · have h2 : ¬ k0 = k' := fun hh => hk' hh.symm
        simp [alput, alget, hk', h2]
    · by_cases hk' : k0 = k'
      · subst hk'
        simp [alput, alget, hk]
      · simp [alput, alget, hk, hk', ih]

theorem alsum_alput_fresh [DecidableEq κ] (f : α → Nat) (m : List (κ × α)) (k : κ) (v : α)
    (h : alget m k = none) : alsum f (alput m k v) = alsum f m + f v := by
  induction m with
  | nil => simp [alput, alsum]
  | cons hd t ih =>
    obtain ⟨k0, v0⟩ := hd
    by_cases hk : k0 = k
    · subst hk
      simp [alget] at h
    · simp only [alget, if_neg hk] at h
      simp only [alput, if_neg hk, alsum, List.map_cons, List.sum_cons] at *
      rw [ih h]
      omega

theorem alsum_alput_existing [DecidableEq κ] (f : α → Nat) (m : List (κ × α)) (k : κ)
    (v w : α) (h : alget m k = some w) :
    alsum f (alput m k v) + f w = alsum f m + f v := by
  induction m with
  | nil => simp [alget] at h
  | cons hd t ih =>
    obtain ⟨k0, v0⟩ := hd
    by_cases hk : k0 = k
    · subst hk
      have h2 : v0 = w := by simpa [alget] using h
      subst h2
      simp [alput, alsum]
      omega
    · simp only [alget, if_neg hk] at h
      simp only [alput, if_neg hk, alsum, List.map_cons, List.sum_cons] at *
      have := ih h
      omega

/-! ## Aggregator bookkeeping lemmas -/

theorem procPhase_pf (r : monitorReport) (ae : aggEvent) (r1 : monitorReport)
    (h : procPhase r ae = .ok r1) :
    r1.processFiles = r.processFiles ∧ r1.eventCount = r.eventCount := by
  simp only [procPhase] at h
  split at h
  · split at h
    · injection h with h2; subst h2; exact ⟨rfl, rfl⟩
    · injection h with h2; subst h2; exact ⟨rfl, rfl⟩
    · simp at h
  · split at h
    · injection h with h2; subst h2; exact ⟨rfl, rfl⟩
    · split at h
      · split at h
        · simp at h
        · injection h with h2; subst h2; exact ⟨rfl, rfl⟩
      · injection h with h2; subst h2; exact ⟨rfl, rfl⟩
      · simp at h

theorem filePhase_fields (r : monitorReport) (ae : aggEvent) :
    (filePhase r ae).eventCount = r.eventCount ∧
    (filePhase r ae).processes = r.processes ∧
    (filePhase r ae).mainProcess = r.mainProcess := by
  simp only [filePhase, ensurePf]
  split <;> simp

theorem bumpFi_eventCount (fi : fileInfo) (ae : aggEvent) (xm : Bool) :
    (bumpFi fi ae xm).eventCount = fi.eventCount + 1 := rfl

theorem alsum_updatePfm (pfm : List (String × fileInfo)) (ae : aggEvent) (xm : Bool) :
    alsum fileInfo.eventCount (updatePfm pfm ae xm) =
      alsum fileInfo.eventCount pfm + 1 := by
  cases hg : alget pfm ae.e.file with
  | none =>
    simp only [updatePfm, hg]
    rw [alsum_alput_fresh _ _ _ _ hg]
    rfl
  | some fi =>
    simp only [updatePfm, hg]
    have h2 := alsum_alput_existing fileInfo.eventCount pfm ae.e.file (bumpFi fi ae xm) fi hg
    rw [bumpFi_eventCount] at h2
    omega

theorem pfSum_filePhase (r : monitorReport) (ae : aggEvent) :
    pfSum (filePhase r ae).processFiles = pfSum r.processFiles + 1 := by
  simp only [filePhase, pfSum]
  cases hg : alget r.processFiles (toString ae.e.pid) with
  | some pfm =>
    have he : ensurePf r (toString ae.e.pid) = r := by
      simp [ensurePf, hg]
    rw [he, hg]
    simp only [Option.getD_some]
    have h2 := alsum_alput_existing (alsum fileInfo.eventCount) r.processFiles
      (toString ae.e.pid)
      (updatePfm pfm ae (exeMatch r (toString ae.e.pid) ae.e.file)) pfm hg
    have h3 := alsum_updatePfm pfm ae (exeMatch r (toString ae.e.pid) ae.e.file)
    omega
  | none =>
    have he : ensurePf r (toString ae.e.pid) =
        { r with processFiles := alput r.processFiles (toString ae.e.pid) [] } := by
      simp [ensurePf, hg]
    rw [he]
    dsimp only
    have hA : alget (alput r.processFiles (toString ae.e.pid) []) (toString ae.e.pid) =
        some ([] : List (String × fileInfo)) := by
      rw [alget_alput]
      simp
    rw [hA]
    simp only [Option.getD_some]
    have h1 : alsum (alsum fileInfo.eventCount) (alput r.processFiles (toString ae.e.pid) []) =
        alsum (alsum fileInfo.eventCount) r.processFiles + alsum fileInfo.eventCount [] :=
      alsum_alput_fresh _ _ _ _ hg
    have h2 := alsum_alput_existing (alsum fileInfo.eventCount)
      (alput r.processFiles (toString ae.e.pid) []) (toString ae.e.pid)
      (updatePfm [] ae (exeMatch { r with
        processFiles := alput r.processFiles (toString ae.e.pid) [] }
        (toString ae.e.pid) ae.e.file)) [] hA
    have h3 := alsum_updatePfm ([] : List (String × fileInfo)) ae
      (exeMatch { r with processFiles := alput r.processFiles (toString ae.e.pid) [] }
        (toString ae.e.pid) ae.e.file)
    simp only [alsum, List.map_nil, List.sum_nil] at h1 h2 h3 ⊢
    omega

theorem aggStep_counts (r : monitorReport) (ae : aggEvent) (r' : monitorReport)
    (h : aggStep r ae = .ok r') :
    r'.eventCount = r.eventCount + 1 ∧
    pfSum r'.processFiles = pfSum r.processFiles + 1 := by
  unfold aggStep at h
  cases hp : procPhase (bumpCount r) ae with
  | ok r1 =>
    rw [hp] at h
    simp only [goRes.mapR] at h
    injection h with h2
    subst h2
    obtain ⟨hpf, hec⟩ := procPhase_pf _ _ _ hp
    have hf := filePhase_fields r1 ae
    have hs := pfSum_filePhase r1 ae
    refine ⟨?_, ?_⟩
    · rw [hf.1, hec]; rfl
    · rw [hs, hpf]; rfl
  | err => rw [hp] at h; simp [goRes.mapR] at h
  | crash => rw [hp] at h; simp [goRes.mapR] at h

theorem aggRun_count_sum (aes : List aggEvent) :
    ∀ r r', aggRun r aes = .ok r' → r.eventCount = pfSum r.processFiles →
      r'.eventCount = pfSum r'.processFiles := by
  induction aes with
  | nil =>
    intro r r' h hinv
    unfold aggRun at h
    injection h with h2
    subst h2
    exact hinv
  | cons ae rest ih =>
    intro r r' h hinv
    unfold aggRun at h
    cases hs : aggStep r ae with
    | ok r1 =>
      rw [hs] at h
      obtain ⟨h1, h2⟩ := aggStep_counts _ _ _ hs
      exact ih r1 r' h (by omega)
    | err => rw [hs] at h; simp at h
    | crash => rw [hs] at h; simp at h

/-- C1: for every report the aggregator delivers at stop time, the
total `event_count` equals the sum, over every pid key of
`process_files` and every path key under it, of that record's
`event_count`. -/
theorem agg_event_count_sum (m p : Int) (aes : List aggEvent) (r : monitorReport)
    (h : aggRun (initReport m p) aes = .ok r) :
    r.eventCount = pfSum r.processFiles :=
  aggRun_count_sum aes (initReport m p) r h rfl

/-- Witness for C1: the invariant evaluated on a concrete one-event run. -/
theorem agg_event_count_sum_witness : w1rep.eventCount = pfSum w1rep.processFiles :=
  agg_event_count_sum 9 1 w1evs w1rep (by decide)

/-- C2 (code bug): the introspector returns a plain error for failures
of the first four `/proc` reads, but a failed `/proc/<pid>/stat` read
makes it panic — `procName` stays empty and `procName[1:len-1]` is out
of range — instead of returning the non-fatal NotFound the claim
states. -/
theorem getProcessInfo_stat_read_crash :
    getProcessInfo procEntryStatFail 5 = .crash ∧
    getProcessInfo procEntryNone 5 = .err := by
  exact ⟨by decide, by decide⟩

/-- Snapshot of pid 6 whose reads all succeed. -/
def procEntrySh : procEntry :=
  ⟨some "/exe", some "/", some "/", some "sh", some "6 (sh) S 1"⟩

/-- Record `getProcessInfo` builds from `procEntrySh`. -/
def pinfoSh : processInfo := ⟨6, "sh", "/exe", "sh", "/", "/", 1⟩

/-- Event sequence on which aggregation step 3 panics: event 1's
introspection fails (so `Processes` is never allocated), event 2's
succeeds (so the insert hits the nil map). -/
def cex3evs : List aggEvent :=
  [⟨⟨1, 5, "/a", true, false⟩, procEntryNone⟩,
   ⟨⟨2, 6, "/b", true, false⟩, procEntrySh⟩]

/-- C3 (code bug): the source allocates `report.Processes` only inside
the first-event introspection-success branch; when the first event's
introspection failed and a later event's succeeds, the insert
`report.Processes[pid] = pinfo` assigns into a nil map and panics, so
aggregation step 3 is not panic-free. -/
theorem agg_nil_processes_crash :
    getProcessInfo procEntryNone 5 = .err ∧
    getProcessInfo procEntrySh 6 = .ok pinfoSh ∧
    aggRun (initReport 9 1) cex3evs = .crash := by
  exact ⟨by decide, by decide, by decide⟩

/-! ## C4: reads + writes versus event_count -/

/-- One event that carries the read and the write flag at once. -/
def cex4evs : List aggEvent := [⟨⟨1, 5, "/f", true, true⟩, procEntryNone⟩]

/-- Counterexample for C4 as stated: a single event carrying both
flags yields a record with `reads = 1`, `writes = 1` but
`event_count = 1`, so `reads + writes ≤ event_count` fails. -/
theorem agg_reads_writes_counterexample :
    finalRec (aggRun (initReport 9 1) cex4evs) "5" "/f" =
      some ⟨1, 0, "/f", 1, 1, 0⟩ ∧
    ¬ ((1 : Nat) + 1 ≤ 1) := by
  exact ⟨by decide, by decide⟩

/-- Per-record bound `reads + writes ≤ event_count`. -/
def fiOkRW (fi : fileInfo) : Prop :=
  fi.readCount + fi.writeCount ≤ fi.eventCount

/-- The bound holding for every record reachable in `process_files`. -/
def rwInv (pf : List (String × List (String × fileInfo))) : Prop :=
  ∀ pk pfm, alget pf pk = some pfm → ∀ f fi, alget pfm f = some fi → fiOkRW fi

theorem fiOkRW_newFi (ae : aggEvent) (xm : Bool)
    (hboth : ae.e.isRead = false ∨ ae.e.isWrite = false) :
    fiOkRW (newFi ae xm) := by
  rcases hboth with hb | hb <;>
    cases hw : ae.e.isWrite <;> cases hr : ae.e.isRead <;>
      simp_all [fiOkRW, newFi]

theorem fiOkRW_bumpFi (fi : fileInfo) (ae : aggEvent) (xm : Bool)
    (hboth : ae.e.isRead = false ∨ ae.e.isWrite = false)
    (h : fiOkRW fi) : fiOkRW (bumpFi fi ae xm) := by
  rcases hboth with hb | hb <;>
    cases hw : ae.e.isWrite <;> cases hr : ae.e.isRead <;>
      simp_all [fiOkRW, bumpFi] <;> omega

theorem updatePfm_records (pfm : List (String × fileInfo)) (ae : aggEvent) (xm : Bool)
    (hboth : ae.e.isRead = false ∨ ae.e.isWrite = false)
    (h : ∀ f fi, alget pfm f = some fi → fiOkRW fi) :
    ∀ f fi, alget (updatePfm pfm ae xm) f = some fi → fiOkRW fi := by
  intro f fi hf
  cases hg : alget pfm ae.e.file with
  | none =>
    simp only [updatePfm, hg] at hf
    rw [alget_alput] at hf
    by_cases hfe : f = ae.e.file
    · rw [if_pos hfe] at hf
      injection hf with h2
      subst h2
      exact fiOkRW_newFi ae xm hboth
    · rw [if_neg hfe] at hf
      exact h f fi hf
  | some fi0 =>
    simp only [updatePfm, hg] at hf
    rw [alget_alput] at hf
    by_cases hfe : f = ae.e.file
    · rw [if_pos hfe] at hf
      injection hf with h2
      subst h2
      exact fiOkRW_bumpFi fi0 ae xm hboth (h ae.e.file fi0 hg)
    · rw [if_neg hfe] at hf
      exact h f fi hf

theorem rwInv_filePhase (r : monitorReport) (ae : aggEvent)
    (hboth : ae.e.isRead = false ∨ ae.e.isWrite = false)
    (hinv : rwInv r.processFiles) : rwInv (filePhase r ae).processFiles := by
  intro pk pfm hpk f fi hf
  cases hg : alget r.processFiles (toString ae.e.pid) with
  | some pfm0 =>
    have he : ensurePf r (toString ae.e.pid) = r := by simp [ensurePf, hg]
    simp only [filePhase, he, hg, Option.getD_some] at hpk
    rw [alget_alput] at hpk
    by_cases hpe : pk = toString ae.e.pid
    · rw [if_pos hpe] at hpk
      injection hpk with h2
      subst h2
      exact updatePfm_records pfm0 ae _ hboth
        (fun g gi hg2 => hinv _ pfm0 hg g gi hg2) f fi hf
    · rw [if_neg hpe] at hpk
      exact hinv pk pfm hpk f fi hf
  | none =>
    have he : ensurePf r (toString ae.e.pid) =
        { r with processFiles := alput r.processFiles (toString ae.e.pid) [] } := by
      simp [ensurePf, hg]
    simp only [filePhase, he] at hpk
    have hA : alget (alput r.processFiles (toString ae.e.pid) []) (toString ae.e.pid) =
        some ([] : List (String × fileInfo)) := by
      rw [alget_alput]
      simp
    rw [hA] at hpk
    simp only [Option.getD_some] at hpk
    rw [alget_alput] at hpk
    by_cases hpe : pk = toString ae.e.pid
    · rw [if_pos hpe] at hpk
      injection hpk with h2
      subst h2
      exact updatePfm_records [] ae _ hboth (by intro g gi hg2; simp [alget] at hg2) f fi hf
    · rw [if_neg hpe] at hpk
      rw [alget_alput, if_neg hpe] at hpk
      exact hinv pk pfm hpk f fi hf

theorem rwInv_aggStep (r : monitorReport) (ae : aggEvent) (r' : monitorReport)
    (hboth : ae.e.isRead = false ∨ ae.e.isWrite = false)
    (h : aggStep r ae = .ok r') (hinv : rwInv r.processFiles) :
    rwInv r'.processFiles := by
  unfold aggStep at h
  cases hp : procPhase (bumpCount r) ae with
  | ok r1 =>
    rw [hp] at h
    simp only [goRes.mapR] at h
    injection h with h2
    subst h2
    have hpf : r1.processFiles = r.processFiles := (procPhase_pf _ _ _ hp).1
    exact rwInv_filePhase r1 ae hboth (by rw [hpf]; exact hinv)
  | err => rw [hp] at h; simp [goRes.mapR] at h
  | crash => rw [hp] at h; simp [goRes.mapR] at h

theorem rwInv_aggRun (aes : List aggEvent) :
    ∀ r r', aggRun r aes = .ok r' →
      (∀ ae ∈ aes, ae.e.isRead = false ∨ ae.e.isWrite = false) →
      rwInv r.processFiles → rwInv r'.processFiles := by
  induction aes with
  | nil =>
    intro r r' h _ hinv
    unfold aggRun at h
    injection h with h2
    subst h2
    exact hinv
  | cons ae rest ih =>
    intro r r' h hflags hinv
    unfold aggRun at h
    cases hs : aggStep r ae with
    | ok r1 =>
      rw [hs] at h
      exact ih r1 r' h (fun a ha => hflags a (List.mem_cons_of_mem ae ha))
        (rwInv_aggStep r ae r1 (hflags ae (List.mem_cons_self ae rest)) hs hinv)
    | err => rw [hs] at h; simp at h
    | crash => rw [hs] at h; simp at h

/-- C4 amended: for every FileRecord of the final report,
`reads + writes ≤ event_count` holds provided no input event carries
the read and the write flag simultaneously (an event carrying both
increments `reads` and `writes` but `event_count` only once, so the
claimed bound fails for such sequences). -/
theorem agg_reads_writes_le (m p : Int) (aes : List aggEvent)
    (hflags : ∀ ae ∈ aes, ae.e.isRead = false ∨ ae.e.isWrite = false)
    (r : monitorReport) (h : aggRun (initReport m p) aes = .ok r) :
    ∀ pk pfm, alget r.processFiles pk = some pfm →
      ∀ f fi, alget pfm f = some fi →
        fi.readCount + fi.writeCount ≤ fi.eventCount := by
  have := rwInv_aggRun aes (initReport m p) r h hflags
    (by intro pk pfm hpk; simp [initReport, alget] at hpk)
  exact fun pk pfm hpk f fi hf => this pk pfm hpk f fi hf

/-- Witness for C4: the amended bound evaluated on a concrete
read-only run. -/
theorem agg_reads_writes_le_witness :
    w1fi.readCount + w1fi.writeCount ≤ w1fi.eventCount :=
  agg_reads_writes_le 9 1 w1evs (by decide) w1rep (by decide)
    "5" [("/f", w1fi)] (by decide) "/f" w1fi (by decide)

/-! ## C5: effect of one open-only event -/

theorem ensurePf_processes (r : monitorReport) (pk : String) :
    (ensurePf r pk).processes = r.processes := by
  simp only [ensurePf]
  split <;> rfl

theorem recOf_filePhase (r : monitorReport) (ae : aggEvent) :
    recOf (filePhase r ae) (toString ae.e.pid) ae.e.file =
      some (match recOf r (toString ae.e.pid) ae.e.file with
        | none => newFi ae (exeMatch r (toString ae.e.pid) ae.e.file)
        | some fi => bumpFi fi ae (exeMatch r (toString ae.e.pid) ae.e.file)) := by
  cases hg : alget r.processFiles (toString ae.e.pid) with
  | some pfm0 =>
    have he : ensurePf r (toString ae.e.pid) = r := by simp [ensurePf, hg]
    simp only [recOf, filePhase, he, hg, Option.getD_some]
    cases hf : alget pfm0 ae.e.file with
    | none => simp [updatePfm, hf, alget_alput]
    | some fi => simp [updatePfm, hf, alget_alput]
  | none =>
    have he : ensurePf r (toString ae.e.pid) =
        { r with processFiles := alput r.processFiles (toString ae.e.pid) [] } := by
      simp [ensurePf, hg]
    have hA : alget (alput r.processFiles (toString ae.e.pid) []) (toString ae.e.pid) =
        some ([] : List (String × fileInfo)) := by
      rw [alget_alput]
      simp
    simp only [recOf, filePhase, he, hA, hg, Option.getD_some]
    simp [updatePfm, alget, alput, alget_alput, exeMatch]

/-- C5 amended: an open-only event (read and write both false)
increments the owning FileRecord's `event_count` by 1 and leaves
`reads` and `writes` unchanged, but `execs` is incremented exactly
when a process record for the pid exists after step 3 and the event
path equals that record's exe path — regardless of the event's flags,
so `execs` does change when the path equals the owning process's
exe_path. -/
theorem agg_open_only_step (r : monitorReport) (ae : aggEvent) (r' : monitorReport)
    (hr : ae.e.isRead = false) (hw : ae.e.isWrite = false)
    (h : aggStep r ae = .ok r') :
    ecOf r' (toString ae.e.pid) ae.e.file = ecOf r (toString ae.e.pid) ae.e.file + 1 ∧
    rdOf r' (toString ae.e.pid) ae.e.file = rdOf r (toString ae.e.pid) ae.e.file ∧
    wrOf r' (toString ae.e.pid) ae.e.file = wrOf r (toString ae.e.pid) ae.e.file ∧
    exOf r' (toString ae.e.pid) ae.e.file = exOf r (toString ae.e.pid) ae.e.file +
      (if exeMatch r' (toString ae.e.pid) ae.e.file then 1 else 0) := by
  unfold aggStep at h
  cases hp : procPhase (bumpCount r) ae with
  | ok r1 =>
    rw [hp] at h
    simp only [goRes.mapR] at h
    injection h with h2
    subst h2
    have hpf : r1.processFiles = r.processFiles := (procPhase_pf _ _ _ hp).1
    have hrecr : recOf r1 (toString ae.e.pid) ae.e.file =
        recOf r (toString ae.e.pid) ae.e.file := by
      simp [recOf, hpf]
    have hxm : exeMatch (filePhase r1 ae) (toString ae.e.pid) ae.e.file =
        exeMatch r1 (toString ae.e.pid) ae.e.file := by
      have hproc := (filePhase_fields r1 ae).2.1
      simp [exeMatch, hproc]
    have hrec := recOf_filePhase r1 ae
    rw [hrecr] at hrec
    cases hr0 : recOf r (toString ae.e.pid) ae.e.file with
    | none =>
      rw [hr0] at hrec
      simp only [ecOf, rdOf, wrOf, exOf, hrec, hr0, hxm, hrecr, Option.map_some,
        Option.map_none, Option.getD_some, Option.getD_none]
      simp [newFi, hr, hw]
    | some fi =>
      rw [hr0] at hrec
      simp only [ecOf, rdOf, wrOf, exOf, hrec, hr0, hxm, hrecr, Option.map_some,
        Option.getD_some]
      simp [bumpFi, hr, hw]
  | err => rw [hp] at h; simp [goRes.mapR] at h
  | crash => rw [hp] at h; simp [goRes.mapR] at h

/-- First event of the C5 counterexample: an open-only event from pid
7 on its own executable path, introspection succeeding. -/
def cex5ae1 : aggEvent := ⟨⟨1, 7, "/exe", false, false⟩, procEntryExe⟩

/-- Second event of the C5 counterexample: another open-only event on
the same (pid, path). -/
def cex5ae2 : aggEvent := ⟨⟨2, 7, "/exe", false, false⟩, procEntryExe⟩

/-- Counterexample for C5 as stated: an open-only event whose path
equals the owning process record's exe path increments `execs`
(1 to 2 here) instead of leaving it unchanged. -/
theorem agg_open_only_counterexample :
    cex5ae2.e.isRead = false ∧ cex5ae2.e.isWrite = false ∧
    finalRec (aggRun (initReport 9 1) [cex5ae1]) "7" "/exe" =
      some ⟨1, 0, "/exe", 0, 0, 1⟩ ∧
    finalRec (aggRun (initReport 9 1) [cex5ae1, cex5ae2]) "7" "/exe" =
      some ⟨2, 0, "/exe", 0, 0, 2⟩ := by
  exact ⟨by decide, by decide, by decide, by decide⟩

/-- Process record built by `getProcessInfo` from `procEntryExe`. -/
def piApp : processInfo := ⟨7, "app", "/exe", "app", "/", "/", 1⟩

/-- Report after processing `cex5ae1`. -/
def cex5rep1 : monitorReport :=
  { monitorPid := 9, monitorParentPid := 1, eventCount := 1,
    mainProcess := some piApp, processes := some [("7", piApp)],
    processFiles := [("7", [("/exe", ⟨1, 0, "/exe", 0, 0, 1⟩)])] }

/-- Report after also processing `cex5ae2`. -/
def cex5rep2 : monitorReport :=
  { monitorPid := 9, monitorParentPid := 1, eventCount := 2,
    mainProcess := some piApp, processes := some [("7", piApp)],
    processFiles := [("7", [("/exe", ⟨2, 0, "/exe", 0, 0, 2⟩)])] }

/-- Witness for C5: the amended step theorem applied to the concrete
open-only event `cex5ae2`. -/
theorem agg_open_only_step_witness :
    ecOf cex5rep2 (toString cex5ae2.e.pid) cex5ae2.e.file =
      ecOf cex5rep1 (toString cex5ae2.e.pid) cex5ae2.e.file + 1 ∧
    rdOf cex5rep2 (toString cex5ae2.e.pid) cex5ae2.e.file =
      rdOf cex5rep1 (toString cex5ae2.e.pid) cex5ae2.e.file ∧
    wrOf cex5rep2 (toString cex5ae2.e.pid) cex5ae2.e.file =
      wrOf cex5rep1 (toString cex5ae2.e.pid) cex5ae2.e.file ∧
    exOf cex5rep2 (toString cex5ae2.e.pid) cex5ae2.e.file =
      exOf cex5rep1 (toString cex5ae2.e.pid) cex5ae2.e.file +
        (if exeMatch cex5rep2 (toString cex5ae2.e.pid) cex5ae2.e.file then 1 else 0) :=
  agg_open_only_step cex5rep1 cex5ae2 cex5rep2 rfl rfl (by decide)

/-! ## C6: id assignment of the decode loop -/

theorem processRaw_spec (c : Nat) (d : rawEvent) :
    processRaw c d =
      if shouldEmit d
      then (c + 1, some { id := c + 1, pid := d.pid, file := d.path,
                          isRead := d.mask &&& FAN_ACCESS == FAN_ACCESS,
                          isWrite := d.mask &&& FAN_MODIFY == FAN_MODIFY })
      else (c, none) := by
  by_cases h1 : d.mask &&& FAN_Q_OVERFLOW == FAN_Q_OVERFLOW
  · simp [processRaw, shouldEmit, h1]
  · by_cases h2 : d.mask &&& FAN_OPEN == FAN_OPEN <;>
      by_cases h3 : d.mask &&& FAN_ACCESS == FAN_ACCESS <;>
        by_cases h4 : d.mask &&& FAN_MODIFY == FAN_MODIFY <;>
          simp [processRaw, shouldEmit, h1, h2, h3, h4]

theorem emitEvents_spec (raws : List rawEvent) : ∀ c : Nat,
    (emitEvents c raws).map event.id =
      List.range' (c + 1) (raws.filter shouldEmit).length ∧
    (emitEvents c raws).map (fun e => (e.pid, e.file, e.isRead, e.isWrite)) =
      (raws.filter shouldEmit).map (fun d =>
        (d.pid, d.path, d.mask &&& FAN_ACCESS == FAN_ACCESS,
          d.mask &&& FAN_MODIFY == FAN_MODIFY)) := by
  induction raws with
  | nil => intro c; simp [emitEvents]
  | cons d rest ih =>
    intro c
    cases hs : shouldEmit d with
    | true =>
      have hE : emitEvents c (d :: rest) =
          { id := c + 1, pid := d.pid, file := d.path,
            isRead := d.mask &&& FAN_ACCESS == FAN_ACCESS,
            isWrite := d.mask &&& FAN_MODIFY == FAN_MODIFY } :: emitEvents (c + 1) rest := by
        rw [emitEvents, processRaw_spec, if_pos hs]
      have hF : (d :: rest).filter shouldEmit = d :: rest.filter shouldEmit :=
        List.filter_cons_of_pos hs
      rw [hE, hF]
      refine ⟨?_, ?_⟩
      · simp only [List.map_cons, List.length_cons, (ih (c + 1)).1]
        rfl
      · simp only [List.map_cons, (ih (c + 1)).2]
    | false =>
      have hE : emitEvents c (d :: rest) = emitEvents c rest := by
        rw [emitEvents, processRaw_spec, if_neg (by simp [hs])]
      have hF : (d :: rest).filter shouldEmit = rest.filter shouldEmit :=
        List.filter_cons_of_neg (by simp [hs])
      rw [hE, hF]
      exact ih c

/-- C6: the decode loop drops raw events carrying the queue-overflow
bit, assigns an id to (and emits) a raw event exactly when one of the
open, access or modify bits is set, and the ids it assigns are
`1, 2, …, k` — strictly increasing by 1 starting at 1, with no id
given to raw events that carry none of those bits. -/
theorem emit_ids_dense (raws : List rawEvent) :
    (emitEvents 0 raws).map event.id =
      List.range' 1 ((raws.filter shouldEmit).length) ∧
    (emitEvents 0 raws).map (fun e => (e.pid, e.file, e.isRead, e.isWrite)) =
      (raws.filter shouldEmit).map (fun d =>
        (d.pid, d.path, d.mask &&& FAN_ACCESS == FAN_ACCESS,
          d.mask &&& FAN_MODIFY == FAN_MODIFY)) :=
  emitEvents_spec raws 0

/-! ## C7: the find-output parse and paths containing spaces -/

/-- Stat environment in which `/a b` (a path containing a space)
exists with inode 5. -/
def statAB : String → Option Nat :=
  fun s => if s = "/a b" then some 5 else none

/-- C7 (code bug): for a touched path containing a space, `stat`
succeeds, but the resolver splits each `find` output line on single
spaces and takes `info[1]`, so it records the truncated `/a` and the
output map omits the touched path `/a b`. -/
theorem findSymlinks_space_path :
    statAB "/a b" = some 5 ∧
    findSymlinksModel statAB ["/a b"] (findOutput [(5, "/a b")]) = .ok ["/a"] ∧
    ¬ (("/a b" : String) ∈ (["/a"] : List String)) := by
  exact ⟨by decide, by decide, by decide⟩

/-! ## C8: the fork observer and what monitor starts -/

theorem algetD_appendAt [DecidableEq κ] (m : List (κ × List α)) (k k' : κ) (v : α) :
    algetD (appendAt m k v) k' [] =
      if k' = k then algetD m k' [] ++ [v] else algetD m k' [] := by
  induction m with
  | nil =>
    by_cases h : k' = k
    · subst h; simp [appendAt, algetD, alget]
    · have h2 : ¬ k = k' := fun hh => h hh.symm
      simp [appendAt, algetD, alget, h, h2]
  | cons hd t ih =>
    obtain ⟨k0, vs⟩ := hd
    by_cases hk : k0 = k
    · subst hk
      by_cases hk' : k' = k0
      · subst hk'
        simp [appendAt, algetD, alget]
      · have h2 : ¬ k0 = k' := fun hh => hk' hh.symm
        simp [appendAt, algetD, alget, hk', h2]
    · by_cases hk' : k0 = k'
      · subst hk'
        simp [appendAt, algetD, alget, hk]
      · simp only [appendAt, if_neg hk]
        simp only [algetD, alget, if_neg hk'] at *
        exact ih
  
theorem monitorProcessForksAux_spec (evs : List procEvent) :
    ∀ acc m, monitorProcessForksAux acc evs = .ok m →
      ∀ p, algetD m p [] = algetD acc p [] ++ forkChildren evs p := by
  induction evs with
  | nil =>
    intro acc m h p
    unfold monitorProcessForksAux at h
    injection h with h2
    subst h2
    simp [forkChildren]
  | cons ev rest ih =>
    intro acc m h p
    cases ev with
    | fork q c =>
      unfold monitorProcessForksAux at h
      have h1 := ih (appendAt acc q c) m h p
      rw [h1, algetD_appendAt]
      by_cases hq : p = q
      · subst hq
        simp [forkChildren, List.filterMap_cons]
      · have h2 : ¬ q = p := fun hh => hq hh.symm
        simp [forkChildren, List.filterMap_cons, h2, hq]
    | execEv pid =>
      unfold monitorProcessForksAux at h
      have h1 := ih acc m h p
      simpa [forkChildren, List.filterMap_cons] using h1
    | exitEv pid =>
      unfold monitorProcessForksAux at h
      have h1 := ih acc m h p
      simpa [forkChildren, List.filterMap_cons] using h1
    | errEv =>
      unfold monitorProcessForksAux at h
      simp at h

/-- C8 amended: `monitorProcess` does implement the fork observer —
when run, the map it delivers at stop time records, for every parent,
exactly the children of its fork events in delivery order — but
`monitor` never starts it: the invocation is commented out, so only
the fanotify listener runs and no parent→children map is maintained
during the observation window. -/
theorem fork_observer_model :
    (launcherTask.forkWatcher ∉ monitorStartedTasks) ∧
    ∀ evs m, monitorProcessForks evs = .ok m →
      ∀ p, algetD m p [] = forkChildren evs p := by
  constructor
  · decide
  · intro evs m h p
    have h1 := monitorProcessForksAux_spec evs [] m h p
    simpa [algetD, alget] using h1

/-- Counterexample for C8 as stated: the fork observer is not among
the observers `monitor` starts (its invocation at main.go lines
963-964 is commented out), so no run subscribes to process-lifecycle
events. -/
theorem fork_observer_not_started :
    launcherTask.forkWatcher ∉ monitorStartedTasks := by
  decide

/-- Witness for C8: the fork-map characterization applied to a
concrete one-fork event list. -/
theorem fork_observer_model_witness :
    launcherTask.forkWatcher ∉ monitorStartedTasks ∧
    algetD [((1 : Int), [(2 : Int)])] 1 [] = forkChildren [.fork 1 2] 1 :=
  ⟨fork_observer_model.1,
   fork_observer_model.2 [.fork 1 2] [(1, [2])] (by decide) 1⟩

/-! ## C9: the zero-event run -/

/-- Counterexample for C9 as stated: after a run with zero delivered
events the report's `processes` map is the nil map (`none`, which
`encoding/json` renders as JSON `null`), not an allocated empty map —
the source allocates `Processes` only in the first-event
introspection-success branch. -/
theorem zero_events_processes_nil :
    aggRun (initReport 1 0) [] = .ok (initReport 1 0) ∧
    (initReport 1 0).processes = none ∧
    (initReport 1 0).processes ≠ some [] := by
  exact ⟨rfl, rfl, by decide⟩

/-- C9 amended: a run finished with zero delivered events still
produces and writes a report with `event_count = 0`, `main_process`
null, `process_files` an empty map, and `processes` the never-allocated
nil map (serialized as JSON `null` rather than an empty object); the
resolver returns an empty path set, no file is copied, no symlink is
recreated, and the written report carries exactly the zero-event
monitor report and an empty image file list. -/
theorem zero_event_run_report (m p : Int) :
    aggRun (initReport m p) [] = .ok (initReport m p) ∧
    (initReport m p).eventCount = 0 ∧
    (initReport m p).mainProcess = none ∧
    (initReport m p).processes = none ∧
    (initReport m p).processFiles = [] ∧
    (∀ (statFn : String → Option Nat) (findOut : String)
        (i2f : List (Int × List String)),
      parseFindLines [] (splitOnChar '\n' findOut.data []) = .ok i2f →
      findSymlinksModel statFn [] findOut = .ok []) ∧
    (∀ env : fsEnv,
      copiedFiles (prepareArtifacts env (newStore (initReport m p) [])) = [] ∧
      (prepareArtifacts env (newStore (initReport m p) [])).linkMap = [] ∧
      saveReportModel (prepareArtifacts env (newStore (initReport m p) [])) =
        ⟨initReport m p, []⟩) := by
  refine ⟨rfl, rfl, rfl, rfl, rfl, ?_, ?_⟩
  · intro statFn findOut i2f hp
    simp only [findSymlinksModel, hp]
    rfl
  · intro env
    exact ⟨rfl, rfl, rfl⟩

/-- Witness for C9: the zero-event conclusions evaluated at concrete
monitor pids and a concrete resolver environment. -/
theorem zero_event_run_report_witness :
    (initReport 1 0).eventCount = 0 ∧
    findSymlinksModel (fun _ => none) [] "" = .ok [] :=
  ⟨(zero_event_run_report 1 0).2.1,
   (zero_event_run_report 1 0).2.2.2.2.2.1 (fun _ => none) "" [] (by decide)⟩

/-! ## C10: directory and other-typed paths in the report -/

theorem prepareArtifact_rawNames_other (env : fsEnv) (p : artStore) (g f : String)
    (hgf : ¬ f = g) :
    alget (prepareArtifact env p g).rawNames f = alget p.rawNames f := by
  cases hls : env.lstatFn g with
  | none => simp only [prepareArtifact, hls]
  | some st =>
    obtain ⟨kind, mt, sz⟩ := st
    cases kind with
    | regular =>
      simp only [prepareArtifact, hls]
      simp [alget_alput, hgf]
    | symlink =>
      cases hrl : env.readlinkFn g with
      | none => simp only [prepareArtifact, hls, hrl]
      | some ref =>
        simp only [prepareArtifact, hls, hrl]
        split <;> simp [alget_alput, hgf]
    | directory => simp only [prepareArtifact, hls]
    | other => simp only [prepareArtifact, hls]

theorem prepareArtifact_rawNames_none (env : fsEnv) (p : artStore) (g f : String)
    (hf : alget p.rawNames f = some none)
    (hdir : ∀ st, env.lstatFn f = some st → st.kind = .directory ∨ st.kind = .other) :
    alget (prepareArtifact env p g).rawNames f = some none := by
  by_cases hgf : f = g
  · subst hgf
    cases hls : env.lstatFn f with
    | none =>
      simp only [prepareArtifact, hls]
      exact hf
    | some st =>
      obtain ⟨kind, mt, sz⟩ := st
      have hk : kind = .directory ∨ kind = .other := hdir ⟨kind, mt, sz⟩ hls
      rcases hk with hk | hk <;> subst hk <;>
        simp only [prepareArtifact, hls] <;> exact hf
  · rw [prepareArtifact_rawNames_other env p g f hgf]
    exact hf

theorem prepareArtifact_nameList (env : fsEnv) (p : artStore) (g : String) :
    (prepareArtifact env p g).nameList = p.nameList ∨
    (prepareArtifact env p g).nameList = p.nameList ++ [g] := by
  cases hls : env.lstatFn g with
  | none =>
    simp only [prepareArtifact, hls]
    exact Or.inl trivial
  | some st =>
    obtain ⟨kind, mt, sz⟩ := st
    cases kind with
    | regular =>
      simp only [prepareArtifact, hls]
      exact Or.inr trivial
    | symlink =>
      cases hrl : env.readlinkFn g with
      | none =>
        simp only [prepareArtifact, hls, hrl]
        exact Or.inr trivial
      | some ref =>
        simp only [prepareArtifact, hls, hrl]
        split <;> exact Or.inr rfl
    | directory =>
      simp only [prepareArtifact, hls]
      exact Or.inr trivial
    | other =>
      simp only [prepareArtifact, hls]
      exact Or.inr trivial

theorem prepareArtifact_nameList_mem (env : fsEnv) (p : artStore) (g x : String)
    (hx : x ∈ p.nameList) : x ∈ (prepareArtifact env p g).nameList := by
  rcases prepareArtifact_nameList env p g with h | h <;> rw [h] <;>
    simp [List.mem_append, hx]

theorem prepareArtifact_self_mem (env : fsEnv) (p : artStore) (f : String)
    (st : lstatResult) (hls : env.lstatFn f = some st) :
    f ∈ (prepareArtifact env p f).nameList := by
  obtain ⟨kind, mt, sz⟩ := st
  cases kind with
  | regular =>
    simp only [prepareArtifact, hls]
    simp
  | symlink =>
    cases hrl : env.readlinkFn f with
    | none =>
      simp only [prepareArtifact, hls, hrl]
      simp
    | some ref =>
      simp only [prepareArtifact, hls, hrl]
      split <;> simp
  | directory =>
    simp only [prepareArtifact, hls]
    simp
  | other =>
    simp only [prepareArtifact, hls]
    simp

theorem prepareFold_rawNames_none (env : fsEnv) (keys : List String) :
    ∀ p f, alget p.rawNames f = some none →
      (∀ st, env.lstatFn f = some st → st.kind = .directory ∨ st.kind = .other) →
      alget ((keys.foldl (prepareArtifact env) p)).rawNames f = some none := by
  induction keys with
  | nil => intro p f hf _; exact hf
  | cons g rest ih =>
    intro p f hf hd
    exact ih (prepareArtifact env p g) f
      (prepareArtifact_rawNames_none env p g f hf hd) hd

theorem prepareFold_mem (env : fsEnv) (keys : List String) :
    ∀ p x, x ∈ p.nameList → x ∈ (keys.foldl (prepareArtifact env) p).nameList := by
  induction keys with
  | nil => intro p x hx; exact hx
  | cons g rest ih =>
    intro p x hx
    exact ih (prepareArtifact env p g) x (prepareArtifact_nameList_mem env p g x hx)

theorem prepareFold_self_mem (env : fsEnv) (keys : List String) (f : String)
    (st : lstatResult) (hls : env.lstatFn f = some st) :
    ∀ p, f ∈ keys → f ∈ (keys.foldl (prepareArtifact env) p).nameList := by
  induction keys with
  | nil => intro p hfk; cases hfk
  | cons g rest ih =>
    intro p hfk
    rcases List.mem_cons.mp hfk with hfg | hfr
    · subst hfg
      exact prepareFold_mem env rest (prepareArtifact env p f) f
        (prepareArtifact_self_mem env p f st hls)
    · exact ih (prepareArtifact env p g) hfr

/-- C10: a resolved path whose lstat succeeds but which is classified
as a directory or another non-file, non-symlink type is appended to
the report's name list while its `rawNames` entry keeps the initial
nil, so the `image.files` array of `creport.json` carries a JSON
`null` (modelled as `none`) at that path's sorted position instead of
an ArtifactProps object. -/
theorem prepare_dir_entry_null (env : fsEnv) (p0 : artStore) (f : String)
    (hf0 : alget p0.rawNames f = some none)
    (hfk : f ∈ p0.rawNames.map Prod.fst)
    (st : lstatResult) (hls : env.lstatFn f = some st)
    (hk : st.kind = .directory ∨ st.kind = .other) :
    f ∈ (prepareArtifacts env p0).nameList ∧
    alget (prepareArtifacts env p0).rawNames f = some none ∧
    ∀ i, (sortStrings (prepareArtifacts env p0).nameList).get? i = some f →
      (imageFiles (prepareArtifacts env p0)).get? i = some none := by
  have hdir : ∀ st', env.lstatFn f = some st' → st'.kind = .directory ∨ st'.kind = .other := by
    intro st' hst'
    rw [hls] at hst'
    injection hst' with h2
    subst h2
    exact hk
  have h1 : f ∈ (prepareArtifacts env p0).nameList :=
    prepareFold_self_mem env (p0.rawNames.map Prod.fst) f st hls p0 hfk
  have h2 : alget (prepareArtifacts env p0).rawNames f = some none :=
    prepareFold_rawNames_none env (p0.rawNames.map Prod.fst) p0 f hf0 hdir
  refine ⟨h1, h2, ?_⟩
  intro i hi
  simp only [imageFiles]
  rw [List.get?_map, hi]
  simp [h2]

/-- Environment of the C10 witness: `/d` is a directory. -/
def env10 : fsEnv :=
  { lstatFn := fun s => if s = "/d" then some ⟨.directory, "drwxr-xr-x", 4096⟩ else none,
    readlinkFn := fun _ => none, sha1Fn := fun _ => none, dataTypeFn := fun _ => none }

/-- Store of the C10 witness: the resolver produced the single path
`/d` with a nil props value. -/
def store10 : artStore := newStore (initReport 1 0) [("/d", none)]

/-- Witness for C10: the directory path `/d` ends up in the name list
with a `null` entry at its sorted position in the image file list. -/
theorem prepare_dir_entry_null_witness :
    "/d" ∈ (prepareArtifacts env10 store10).nameList ∧
    alget (prepareArtifacts env10 store10).rawNames "/d" = some none ∧
    (imageFiles (prepareArtifacts env10 store10)).get? 0 = some none :=
  have h := prepare_dir_entry_null env10 store10 "/d" (by decide) (by decide)
    ⟨.directory, "drwxr-xr-x", 4096⟩ (by decide) (Or.inl rfl)
  ⟨h.1, h.2.1, h.2.2 0 (by decide)⟩
